import Mathlib

/-!
A shallow embedding, in Lean 4, of the content-normalization, provider-transformation,
tool-call extraction/execution, and file-storage utilities of an LLM chat dashboard
(a TypeScript/Next.js application), together with theorems checking the natural-language
specification of those utilities against the code.

JavaScript strings are modelled as Lean `String`/`List Char`, JavaScript numbers as `Rat`
(every JSON numeric literal is a finite decimal, hence exactly representable), arbitrary
JavaScript values as the inductive `JVal`, and effectful calls (filesystem, MCP transport)
as explicit function parameters ("oracles").
-/

/-! ## JavaScript primitive helpers -/

/-- The left-brace character, `Char.ofNat 123`. -/
def lbrace : Char := Char.ofNat 123

/-- The right-brace character, `Char.ofNat 125`. -/
def rbrace : Char := Char.ofNat 125

/-- JavaScript `\s` (whitespace class used by `trim`, regex `\s`): space, tab, LF, VT, FF,
CR, NBSP, line/paragraph separator, BOM.  (Other exotic Unicode space code points never
occur in the inputs considered here.) -/
def isJsWs (c : Char) : Bool :=
  c = ' ' || c = '\t' || c = '\n' || c = '\x0b' || c = '\x0c' || c = '\r' ||
  c.toNat = 160 || c.toNat = 0x2028 || c.toNat = 0x2029 || c.toNat = 0xfeff

/-- Model of JavaScript `String.prototype.split(sep)` for a single-character separator,
on character lists.  `split` never returns an empty array: splitting the empty string
yields `[[]]`. -/
def jsSplit (sep : Char) : List Char → List (List Char)
  | [] => [[]]
  | c :: rest =>
    if c = sep then [] :: jsSplit sep rest
    else
      match jsSplit sep rest with
      | [] => [[c]]
      | s :: ss => (c :: s) :: ss

/-- Boolean prefix test on character lists. -/
def isPrefixList : List Char → List Char → Bool
  | [], _ => true
  | _ :: _, [] => false
  | a :: as, b :: bs => a = b && isPrefixList as bs

/-- Model of JavaScript `String.prototype.includes(sub)`: substring search. -/
def jsIncludes : List Char → List Char → Bool
  | [], sub => sub.isEmpty
  | c :: rest, sub => isPrefixList sub (c :: rest) || jsIncludes rest sub

/-- Model of JavaScript `String.prototype.trim()`: strip `\s` characters from both ends. -/
def jsTrim (cs : List Char) : List Char :=
  ((cs.dropWhile isJsWs).reverse.dropWhile isJsWs).reverse

/-- String-level wrapper of `jsTrim`. -/
def jsTrimStr (s : String) : String :=
  String.mk (jsTrim s.data)

/-- Decimal digits of a natural number, most significant first (model of JavaScript
`Number.prototype.toString()` on a nonnegative integer such as `Date.now()`). -/
def natDigitsAux : Nat → Nat → List Char → List Char
  | 0, _, acc => acc
  | fuel + 1, n, acc =>
    let d := Char.ofNat (48 + n % 10)
    if n < 10 then d :: acc else natDigitsAux fuel (n / 10) (d :: acc)

/-- Decimal representation of a natural number as a character list. -/
def natDigits (n : Nat) : List Char := natDigitsAux (n + 1) n []

/-- Decimal representation of an integer as a character list. -/
def intDigits (i : Int) : List Char :=
  if i < 0 then '-' :: natDigits i.natAbs else natDigits i.natAbs

/-! ## JavaScript values -/

/-- A JavaScript value, as far as the code under study can observe it:  `null`,
`undefined`, booleans, numbers (finite decimals, modelled exactly as rationals),
strings, arrays, and plain objects (ordered association lists with unique keys). -/
inductive JVal where
  | null
  | undef
  | bool (b : Bool)
  | num (q : Rat)
  | str (s : String)
  | arr (items : List JVal)
  | obj (fields : List (String × JVal))

/-- JavaScript truthiness of a `JVal`. -/
def jsTruthy : JVal → Bool
  | .null => false
  | .undef => false
  | .bool b => b
  | .num q => q ≠ 0
  | .str s => s ≠ ""
  | .arr _ => true
  | .obj _ => true

/-- First field of an object with the given key, if any (JavaScript property lookup). -/
def objGet (key : String) : List (String × JVal) → Option JVal
  | [] => none
  | (k, v) :: rest => if k = key then some v else objGet key rest

/-- Insert a key/value pair JavaScript-style: an existing key keeps its position but
takes the new value; a new key is appended. -/
def objInsert (key : String) (v : JVal) : List (String × JVal) → List (String × JVal)
  | [] => [(key, v)]
  | (k, w) :: rest => if k = key then (k, v) :: rest else (k, w) :: objInsert key v rest

/-- Print a rational that is a finite decimal the way JavaScript prints the
corresponding number: minimal digits, no trailing zeros, `-` sign.  `findPow10`
looks for the least exponent `k ≤ fuel` with `den ∣ 10 ^ k`. -/
def findPow10 : Nat → Nat → Option Nat
  | _, 0 => none
  | den, fuel + 1 =>
    if den ∣ 10 ^ (fuel + 1) then
      match findPow10 den fuel with
      | some k => some k
      | none => some (fuel + 1)
    else none

/-- Strip trailing zero characters. -/
def stripTrailingZeros (cs : List Char) : List Char :=
  ((cs.reverse.dropWhile (· = '0'))).reverse

/-- Decimal rendering of a `Rat` whose denominator divides a power of ten
(every JSON literal does), following JavaScript number printing. -/
def ratToString (q : Rat) : String :=
  if q.den = 1 then String.mk (intDigits q.num)
  else
    match findPow10 q.den 40 with
    | none => String.mk (intDigits q.num) ++ "/" ++ String.mk (natDigits q.den)
    | some k =>
      let scaled : Nat := q.num.natAbs * (10 ^ k / q.den)
      let ds := natDigits scaled
      let ds := List.replicate (k + 1 - ds.length) '0' ++ ds
      let intPart := ds.take (ds.length - k)
      let fracPart := stripTrailingZeros (ds.drop (ds.length - k))
      let body := intPart ++ (if fracPart.isEmpty then [] else '.' :: fracPart)
      String.mk (if q.num < 0 then '-' :: body else body)

mutual

/-- Model of JavaScript `String(v)` coercion, restricted to the shapes the code
under study feeds it. -/
def jsToString : JVal → String
  | .null => "null"
  | .undef => "undefined"
  | .bool true => "true"
  | .bool false => "false"
  | .num q => ratToString q
  | .str s => s
  | .arr items => jsToStringArr items
  | .obj _ => "[object Object]"

/-- Array `toString`: elements joined with commas, `null`/`undefined` elements empty. -/
def jsToStringArr : List JVal → String
  | [] => ""
  | [v] =>
    (match v with
     | .null => ""
     | .undef => ""
     | w => jsToString w)
  | v :: rest =>
    (match v with
     | .null => ""
     | .undef => ""
     | w => jsToString w) ++ "," ++ jsToStringArr rest

end

/-! ## Model of `JSON.parse`

A strict JSON parser over character lists, with explicit fuel for the nesting
recursion.  `jsonParse` returns `none` exactly where `JSON.parse` throws. -/

/-- JSON's own whitespace set (space, tab, LF, CR). -/
def isJsonWs (c : Char) : Bool :=
  c = ' ' || c = '\t' || c = '\n' || c = '\r'

/-- Skip JSON whitespace. -/
def skipJsonWs (cs : List Char) : List Char := cs.dropWhile isJsonWs

/-- Hex digit value. -/
def hexVal (c : Char) : Option Nat :=
  if '0' ≤ c ∧ c ≤ '9' then some (c.toNat - 48)
  else if 'a' ≤ c ∧ c ≤ 'f' then some (c.toNat - 87)
  else if 'A' ≤ c ∧ c ≤ 'F' then some (c.toNat - 55)
  else none

/-- Parse the body of a JSON string (after the opening quote), handling escapes;
returns the decoded characters and the remainder after the closing quote. -/
def jsonStringBody : List Char → Option (List Char × List Char)
  | [] => none
  | '"' :: rest => some ([], rest)
  | '\\' :: esc =>
    match esc with
    | '"' :: rest => (jsonStringBody rest).map (fun (s, r) => ('"' :: s, r))
    | '\\' :: rest => (jsonStringBody rest).map (fun (s, r) => ('\\' :: s, r))
    | '/' :: rest => (jsonStringBody rest).map (fun (s, r) => ('/' :: s, r))
    | 'b' :: rest => (jsonStringBody rest).map (fun (s, r) => ('\x08' :: s, r))
    | 'f' :: rest => (jsonStringBody rest).map (fun (s, r) => ('\x0c' :: s, r))
    | 'n' :: rest => (jsonStringBody rest).map (fun (s, r) => ('\n' :: s, r))
    | 'r' :: rest => (jsonStringBody rest).map (fun (s, r) => ('\r' :: s, r))
    | 't' :: rest => (jsonStringBody rest).map (fun (s, r) => ('\t' :: s, r))
    | 'u' :: h1 :: h2 :: h3 :: h4 :: rest =>
      match hexVal h1, hexVal h2, hexVal h3, hexVal h4 with
      | some a, some b, some c, some d =>
        (jsonStringBody rest).map
          (fun (s, r) => (Char.ofNat (((a * 16 + b) * 16 + c) * 16 + d) :: s, r))
      | _, _, _, _ => none
    | _ => none
  | c :: rest =>
    if c.toNat < 32 then none
    else (jsonStringBody rest).map (fun (s, r) => (c :: s, r))

/-- Parse a run of decimal digits; fails when the first char is not a digit. -/
def jsonDigits (cs : List Char) : Option (List Char × List Char) :=
  let ds := cs.takeWhile (fun c => c.isDigit)
  if ds.isEmpty then none else some (ds, cs.drop ds.length)

/-- Numeric value of a digit list. -/
def digitsToNat (ds : List Char) : Nat :=
  ds.foldl (fun acc c => acc * 10 + (c.toNat - 48)) 0

/-- Parse a JSON number per the JSON grammar:
`-?(0|[1-9][0-9]*)(\.[0-9]+)?([eE][+-]?[0-9]+)?`. -/
def jsonNumber (cs : List Char) : Option (Rat × List Char) :=
  let (neg, cs1) :=
    match cs with
    | '-' :: rest => (true, rest)
    | _ => (false, cs)
  let ipart : Option (Nat × List Char) :=
    match cs1 with
    | '0' :: rest => some (0, rest)
    | c :: _ =>
      if '1' ≤ c ∧ c ≤ '9' then
        match jsonDigits cs1 with
        | some (ds, rest) => some (digitsToNat ds, rest)
        | none => none
      else none
    | [] => none
  match ipart with
  | none => none
  | some (i, cs2) =>
    let fpart : Option (Rat × List Char) :=
      match cs2 with
      | '.' :: rest =>
        match jsonDigits rest with
        | some (ds, rest2) =>
          some ((digitsToNat ds : Rat) / ((10 : Rat) ^ ds.length), rest2)
        | none => none
      | _ => some (0, cs2)
    match fpart with
    | none => none
    | some (f, cs3) =>
      let epart : Option (Rat × List Char) :=
        match cs3 with
        | 'e' :: rest | 'E' :: rest =>
          let (eneg, rest1) :=
            match rest with
            | '-' :: r => (true, r)
            | '+' :: r => (false, r)
            | _ => (false, rest)
          match jsonDigits rest1 with
          | some (ds, rest2) =>
            let e := digitsToNat ds
            some ((if eneg then ((10 : Rat) ^ e)⁻¹ else (10 : Rat) ^ e), rest2)
          | none => none
        | _ => some (1, cs3)
      match epart with
      | none => none
      | some (scale, cs4) =>
        let mag : Rat := ((i : Rat) + f) * scale
        some ((if neg then -mag else mag), cs4)

mutual

/-- Parse one JSON value (leading whitespace allowed); `fuel` bounds nesting. -/
def jsonVal : Nat → List Char → Option (JVal × List Char)
  | 0, _ => none
  | fuel + 1, cs =>
    match skipJsonWs cs with
    | [] => none
    | c :: rest =>
      if c = '"' then
        (jsonStringBody rest).map (fun (s, r) => (JVal.str (String.mk s), r))
      else if c = lbrace then jsonObjBody fuel rest []
      else if c = '[' then jsonArrBody fuel rest []
      else if c = 'n' then
        if isPrefixList ['u', 'l', 'l'] rest then some (JVal.null, rest.drop 3) else none
      else if c = 't' then
        if isPrefixList ['r', 'u', 'e'] rest then some (JVal.bool true, rest.drop 3) else none
      else if c = 'f' then
        if isPrefixList ['a', 'l', 's', 'e'] rest then some (JVal.bool false, rest.drop 4)
        else none
      else
        (jsonNumber (c :: rest)).map (fun (q, r) => (JVal.num q, r))

/-- Parse the members of a JSON object after the opening brace. -/
def jsonObjBody : Nat → List Char → List (String × JVal) → Option (JVal × List Char)
  | 0, _, _ => none
  | fuel + 1, cs, acc =>
    match skipJsonWs cs with
    | [] => none
    | c :: rest =>
      if c = rbrace then
        if acc.isEmpty then some (JVal.obj [], rest) else none
      else if c = '"' then
        match jsonStringBody rest with
        | none => none
        | some (key, r1) =>
          match skipJsonWs r1 with
          | ':' :: r2 =>
            match jsonVal fuel r2 with
            | none => none
            | some (v, r3) =>
              let acc := objInsert (String.mk key) v acc
              match skipJsonWs r3 with
              | ',' :: r4 => jsonObjBody fuel r4 acc
              | c2 :: r4 => if c2 = rbrace then some (JVal.obj acc, r4) else none
              | [] => none
          | _ => none
      else none

/-- Parse the elements of a JSON array after the opening bracket. -/
def jsonArrBody : Nat → List Char → List JVal → Option (JVal × List Char)
  | 0, _, _ => none
  | fuel + 1, cs, acc =>
    match skipJsonWs cs with
    | [] => none
    | ']' :: rest =>
      if acc.isEmpty then some (JVal.arr [], rest) else none
    | cs' =>
      match jsonVal fuel cs' with
      | none => none
      | some (v, r1) =>
        let acc := acc ++ [v]
        match skipJsonWs r1 with
        | ',' :: r2 => jsonArrBody fuel r2 acc
        | ']' :: r2 => some (JVal.arr acc, r2)
        | _ => none

end

/-- Model of `JSON.parse`: parse one value, then only whitespace may remain. -/
def jsonParse (s : String) : Option JVal :=
  match jsonVal (s.data.length + 2) s.data with
  | none => none
  | some (v, rest) => if (skipJsonWs rest).isEmpty then some v else none

/-! ## `src/lib/content-helpers.ts` -/

/-- The callback of `content.map(...)` inside `getContentAsString`: a text part
(an object whose `type` is the string `"text"` and which has a `text` property)
contributes its `text` when that is a string, everything else contributes `''`. -/
def itemToText (item : JVal) : String :=
  match item with
  | .obj fs =>
    match objGet "type" fs with
    | some (.str "text") =>
      match objGet "text" fs with
      | some (.str t) => t
      | some _ => ""
      | none => ""
    | _ => ""
  | _ => ""

/-- Model of `getContentAsString` (src/lib/content-helpers.ts): a string is returned
as-is; an array is mapped through `itemToText`, filtered by `Boolean`, and joined
with single spaces; anything else yields the empty string. -/
def getContentAsString (content : JVal) : String :=
  match content with
  | .str s => s
  | .arr items =>
    String.intercalate " " ((items.map itemToText).filter (fun s => s ≠ ""))
  | _ => ""

/-- Model of `getContentAsMultimodal` (src/lib/content-helpers.ts). -/
def getContentAsMultimodal (content : JVal) (reasoning : JVal) : JVal :=
  match content with
  | .arr _ => content
  | _ =>
    if (!(jsTruthy content) ||
        (match content with
         | .str s => jsTrimStr s == ""
         | _ => false)) && jsTruthy reasoning then
      match reasoning with
      | .str _ => reasoning
      | _ => .str (jsToString reasoning)
    else content

/-- Modelled from the spec's words for `flattenToText`: “concatenate the `text` of
every part whose type is `text`, space-joined; non-text parts are dropped,”
“preserving order.”  A part's text is its `text` field when that is a string. -/
def specTextOf (item : JVal) : Option String :=
  match item with
  | .obj fs =>
    match objGet "type" fs with
    | some (.str "text") =>
      match objGet "text" fs with
      | some (.str t) => some t
      | _ => none
    | _ => none
  | _ => none

/-- Modelled from the spec's words: `flattenToText` — identity on strings; on arrays
the texts of the text parts, in order, joined with single spaces. -/
def specFlattenToText (content : JVal) : String :=
  match content with
  | .str s => s
  | .arr items => String.intercalate " " (items.filterMap specTextOf)
  | _ => ""

/-! ## `src/lib/gemini-transformer.ts` -/

/-- The snake-case `image_url` payload: `{url}` on input, `{url, mimetype}` after the
non-Gemini transformation. -/
structure ImageUrlObj where
  url : String
  mimetype : Option String := none
deriving DecidableEq, Repr

/-- The camelCase `imageUrl` payload produced for Gemini models. -/
structure ImageUrlCamelObj where
  url : String
  mimeType : String
deriving DecidableEq, Repr

/-- The `file` payload: `{url, filename?}`. -/
structure FileObj where
  url : String
  filename : Option String := none
deriving DecidableEq, Repr

/-- One element of a structured content array (`ChatMessageContent` item in
src/lib/openrouter.ts, extended with the camelCase field the transformer emits).
Absent fields are `none`. -/
structure ContentPart where
  type : String
  text : Option String := none
  image_url : Option ImageUrlObj := none
  imageUrl : Option ImageUrlCamelObj := none
  file : Option FileObj := none
deriving DecidableEq, Repr

/-- A message's `content`: a plain string, a structured array, or (outside the
TypeScript type, kept for totality of the final fallback `return msg`) anything else. -/
inductive MsgContent where
  | str (s : String)
  | parts (items : List ContentPart)
  | other
deriving DecidableEq, Repr

/-- A chat message: `role` plus `content`. -/
structure ChatMsg where
  role : String
  content : MsgContent
deriving DecidableEq, Repr

/-- JavaScript truthiness of an optional string field (`undefined` and `''` falsy). -/
def truthyOptStr : Option String → Bool
  | some s => s ≠ ""
  | none => false

/-- The fixed extension→MIME table of `getMimeTypeFromUrl`. -/
def mimeTypeMap (extension : String) : Option String :=
  match extension with
  | "jpg" => some "image/jpeg"
  | "jpeg" => some "image/jpeg"
  | "png" => some "image/png"
  | "gif" => some "image/gif"
  | "webp" => some "image/webp"
  | "pdf" => some "application/pdf"
  | "txt" => some "text/plain"
  | "md" => some "text/markdown"
  | "json" => some "application/json"
  | _ => none

/-- Model of `Array.prototype.pop()` on a nonempty array: the last element
(`[]` only for the empty list, which `split` never produces). -/
def jsPop : List (List Char) → List Char
  | [] => []
  | [a] => a
  | _ :: rest => jsPop rest

/-- The extension computation `url.split('.').pop()?.toLowerCase().split('?')[0]`. -/
def urlExtension (url : String) : String :=
  let lastSeg := jsPop (jsSplit '.' url.data)
  let lowered := lastSeg.map Char.toLower
  String.mk ((jsSplit '?' lowered).headD [])

/-- Model of `getMimeTypeFromUrl` (src/lib/gemini-transformer.ts): a `data:` URL with a
nonempty `^data:([^;]+)` capture returns that capture; otherwise the extension is
looked up in `mimeTypeMap`, defaulting to `image/png`. -/
def getMimeTypeFromUrl (url : String) : String :=
  if isPrefixList ("data:".data) url.data then
    let m := String.mk ((url.data.drop 5).takeWhile (fun c => c ≠ ';'))
    if m ≠ "" then m
    else (mimeTypeMap (urlExtension url)).getD "image/png"
  else (mimeTypeMap (urlExtension url)).getD "image/png"

/-- Model of `isGeminiModel` (`model.startsWith('google/gemini')`). -/
def isGeminiModel (model : String) : Bool :=
  isPrefixList ("google/gemini".data) model.data

/-- The per-item mapping of the non-Gemini branch: `image_url` items gain a
`mimetype`; everything else is returned unchanged. -/
def transformItemNonGemini (item : ContentPart) : ContentPart :=
  match item.image_url with
  | some iu =>
    if item.type = "image_url" then
      { type := "image_url",
        image_url := some { url := iu.url, mimetype := some (getMimeTypeFromUrl iu.url) } }
    else item
  | none => item

/-- The per-item mapping of the Gemini branch: `image_url` items are rewritten to the
camelCase `imageUrl` shape, `text` and `file` items are rebuilt field-by-field,
everything else is returned unchanged. -/
def transformItemGemini (item : ContentPart) : ContentPart :=
  if item.type = "image_url" ∧ item.image_url.isSome then
    match item.image_url with
    | some iu =>
      { type := "image_url",
        imageUrl := some { url := iu.url, mimeType := getMimeTypeFromUrl iu.url } }
    | none => item
  else if item.type = "text" ∧ truthyOptStr item.text then
    { type := "text", text := item.text }
  else if item.type = "file" ∧ item.file.isSome then
    match item.file with
    | some f => { type := "file", file := some { url := f.url, filename := f.filename } }
    | none => item
  else item

/-- The per-message mapping of the non-Gemini branch. -/
def transformMsgNonGemini (msg : ChatMsg) : ChatMsg :=
  match msg.content with
  | .str _ => msg
  | .parts items => { msg with content := .parts (items.map transformItemNonGemini) }
  | .other => msg

/-- The per-message mapping of the Gemini branch. -/
def transformMsgGemini (msg : ChatMsg) : ChatMsg :=
  match msg.content with
  | .str _ => msg
  | .parts items => { msg with content := .parts (items.map transformItemGemini) }
  | .other => msg

/-- Model of `transformMessagesForGemini` (src/lib/gemini-transformer.ts). -/
def transformMessagesForGemini (messages : List ChatMsg) (model : String) : List ChatMsg :=
  if !(isGeminiModel model) then messages.map transformMsgNonGemini
  else messages.map transformMsgGemini

/-- The per-item mapping selected by the model identifier (for stating frame
conditions about `transformMessagesForGemini`). -/
def itemMapOf (model : String) : ContentPart → ContentPart :=
  if isGeminiModel model then transformItemGemini else transformItemNonGemini

/-- The per-message mapping selected by the model identifier. -/
def msgMapOf (model : String) : ChatMsg → ChatMsg :=
  if isGeminiModel model then transformMsgGemini else transformMsgNonGemini

/-- Modelled from the spec's words: the MIME type is “sniffed from a `data:` URL prefix
if present” — the characters strictly between `data:` and the first `;`, when the URL
starts with `data:` and that segment is nonempty. -/
def specDataPrefixMime (url : String) : Option String :=
  if isPrefixList ("data:".data) url.data then
    let m := String.mk ((url.data.drop 5).takeWhile (fun c => c ≠ ';'))
    if m = "" then none else some m
  else none

/-- Modelled from the spec claim's words: MIME type from the `data:` prefix when
available, “otherwise looked up from the file extension in a fixed table, defaulting
to `image/png` when the extension is unrecognized.” -/
def specMimeType (url : String) : String :=
  match specDataPrefixMime url with
  | some m => m
  | none =>
    match mimeTypeMap (urlExtension url) with
    | some m => m
    | none => "image/png"

/-! ## `src/lib/prompt-resolver.ts` — tool-call extraction

The regex `TOOL_CALL:\s*([^.]+)\.([^\s]+)\s+(\{[^}]*\}|\{[^}]*\{[^}]*\}[^}]*\})` (flags
`gs`) is resolved into an explicit scanner.  JavaScript regex semantics at a fixed start
position leave no real search: `\s*` is greedy and only ever backtracks one character
(when the first `.` follows the whitespace run immediately), `[^.]+` must end at the
first `.`, `[^\s]+` must end at the first whitespace, and the alternation tries its
first branch `\{[^}]*\}` before the nested-brace branch. -/

/-- First alternative of the argument group: `\{[^}]*\}` — an opening brace, everything
up to the first closing brace, and that closing brace. -/
def matchBracesAlt1 (cs : List Char) : Option (List Char × List Char) :=
  match cs with
  | c :: rest =>
    if c = lbrace then
      let inner := rest.takeWhile (fun x => x ≠ rbrace)
      match rest.drop inner.length with
      | _ :: rem => some (lbrace :: inner ++ [rbrace], rem)
      | [] => none
    else none
  | [] => none

/-- Split a list at its last left brace: `a = b ++ lbrace :: c` with no left brace in `c`. -/
def splitAtLastLbrace (a : List Char) : Option (List Char × List Char) :=
  let revTail := a.reverse.takeWhile (fun c => c ≠ lbrace)
  if revTail.length = a.length then none
  else some (a.take (a.length - revTail.length - 1), revTail.reverse)

/-- Second alternative of the argument group: `\{[^}]*\{[^}]*\}[^}]*\}` — greedy choice
of the last inner left brace before the first closing brace, then up to the next
closing brace. -/
def matchBracesAlt2 (cs : List Char) : Option (List Char × List Char) :=
  match cs with
  | c :: rest =>
    if c = lbrace then
      let a := rest.takeWhile (fun x => x ≠ rbrace)
      match splitAtLastLbrace a with
      | some _ =>
        match rest.drop a.length with
        | _ :: rem =>
          let d := rem.takeWhile (fun x => x ≠ rbrace)
          match rem.drop d.length with
          | _ :: rem2 => some (lbrace :: a ++ rbrace :: d ++ [rbrace], rem2)
          | [] => none
        | [] => none
      | none => none
    else none
  | [] => none

/-- The ordered alternation `(\{[^}]*\}|\{[^}]*\{[^}]*\}[^}]*\})`. -/
def matchBraces (cs : List Char) : Option (List Char × List Char) :=
  match matchBracesAlt1 cs with
  | some r => some r
  | none => matchBracesAlt2 cs

/-- Attempt to match the whole tool-call pattern at the start of `cs`; on success,
return the three capture groups and the remainder after the match. -/
def matchToolCallAt (cs : List Char) :
    Option ((List Char × List Char × List Char) × List Char) :=
  if isPrefixList ("TOOL_CALL:".data) cs then
    let j := cs.drop 10
    let w := j.takeWhile isJsWs
    let afterWs := j.dropWhile isJsWs
    let s1 := afterWs.takeWhile (fun c => c ≠ '.')
    match afterWs.drop s1.length with
    | '.' :: afterDot =>
      let g1opt : Option (List Char) :=
        if s1.isEmpty then
          match w with
          | [] => none
          | _ :: _ => some [w.getLastD ' ']
        else some s1
      match g1opt with
      | none => none
      | some g1 =>
        let s2 := afterDot.takeWhile (fun c => !(isJsWs c))
        if s2.isEmpty then none
        else
          match afterDot.drop s2.length with
          | [] => none
          | afterS2 =>
            let rest2 := afterS2.dropWhile isJsWs
            match matchBraces rest2 with
            | some (g3, rem) => some ((g1, s2, g3), rem)
            | none => none
    | _ => none
  else none

/-- Leftmost match of the tool-call regex: try each start position in order
(`exec` with the `g` flag resumes from the end of the previous match). -/
def findToolCall : List Char → Option ((List Char × List Char × List Char) × List Char)
  | [] => none
  | c :: rest =>
    match matchToolCallAt (c :: rest) with
    | some r => some r
    | none => findToolCall rest

/-- A parsed tool call. -/
structure ToolCall where
  serverName : String
  toolName : String
  arguments : JVal

/-- The retry `argsJson.match(/\{[\s\S]*\}/)`: from the first left brace to the last
right brace after it, inclusive. -/
def braceScan (s : String) : Option String :=
  let cs := s.data
  let pre := cs.takeWhile (fun c => c ≠ lbrace)
  match cs.drop pre.length with
  | l :: t =>
    let revSkip := t.reverse.dropWhile (fun c => c ≠ rbrace)
    match revSkip with
    | [] => none
    | _ :: _ => some (String.mk (l :: revSkip.reverse))
  | [] => none

/-- The argument-parsing block of `parseToolCalls`: `JSON.parse` the captured span;
on failure retry `JSON.parse` on the loose brace scan; `none` when both fail
(the enclosing `catch` then skips the call). -/
def parseToolCallArgs (argsJson : String) : Option JVal :=
  match jsonParse argsJson with
  | some v => some v
  | none =>
    match braceScan argsJson with
    | some j => jsonParse j
    | none => none

/-- The `while ((match = toolCallRegex.exec(text)) !== null)` loop of `parseToolCalls`:
each match is parsed and pushed, or skipped when its arguments fail to parse.
`fuel` bounds the number of iterations; each match consumes at least ten characters,
so `text.length + 1` iterations always suffice. -/
def parseToolCallsLoop : Nat → List Char → List ToolCall
  | 0, _ => []
  | fuel + 1, cs =>
    match findToolCall cs with
    | none => []
    | some ((g1, g2, g3), rem) =>
      match parseToolCallArgs (String.mk g3) with
      | some args =>
        { serverName := String.mk (jsTrim g1),
          toolName := String.mk (jsTrim g2),
          arguments := args } :: parseToolCallsLoop fuel rem
      | none => parseToolCallsLoop fuel rem

/-- Model of `parseToolCalls` (src/lib/prompt-resolver.ts). -/
def parseToolCalls (text : String) : List ToolCall :=
  parseToolCallsLoop (text.data.length + 1) text.data

/-- The sequence of regex matches of the tool-call pattern in a text, in order
(the occurrences the `g`-flagged `exec` loop visits). -/
def toolCallMatchesLoop : Nat → List Char → List (List Char × List Char × List Char)
  | 0, _ => []
  | fuel + 1, cs =>
    match findToolCall cs with
    | none => []
    | some (g, rem) => g :: toolCallMatchesLoop fuel rem

/-- All tool-call regex matches of a text. -/
def toolCallMatches (text : String) : List (List Char × List Char × List Char) :=
  toolCallMatchesLoop (text.data.length + 1) text.data

/-! ## `src/lib/prompt-resolver.ts` — tool-call execution -/

/-- An MCP server configuration (src/unnamed/part_008). -/
structure McpServerConfig where
  name : String
  command : String
  args : Option (List String) := none
  env : Option (List (String × String)) := none

/-- The result object of `callMcpTool`: at most a `content` array. -/
structure McpToolResult where
  content : Option (List JVal) := none

/-- One entry of the result array of `executeToolCalls`. -/
structure ToolExecResult where
  success : Bool
  result : String
  error : Option String := none
deriving DecidableEq, Repr

/-- The per-item callback of `content.map(...)` in `executeToolCalls`: a string item is
kept, an object item with a `text` property is coerced with `String(item.text)`, and
anything else is coerced with `String(item)`. -/
def contentItemText (item : JVal) : String :=
  match item with
  | .str s => s
  | .obj fs =>
    match objGet "text" fs with
    | some t => jsToString t
    | none => jsToString (.obj fs)
  | v => jsToString v

/-- The body of the `for` loop of `executeToolCalls` for one call: look up the server
case-insensitively; an unknown server yields a synthetic failure entry; a transport
error (`callTool` throwing, modelled as `.error`) is caught into a failure entry. -/
def execToolCall (configs : List McpServerConfig)
    (callTool : McpServerConfig → String → JVal → Except String McpToolResult)
    (toolCall : ToolCall) : ToolExecResult :=
  match configs.find? (fun c =>
      String.mk (c.name.data.map Char.toLower)
        == String.mk (toolCall.serverName.data.map Char.toLower)) with
  | none =>
    { success := false, result := "",
      error := some ("Server \"" ++ toolCall.serverName ++ "\" not found") }
  | some config =>
    match callTool config toolCall.toolName toolCall.arguments with
    | .ok result =>
      let content := result.content.getD []
      { success := true, result := String.intercalate "\n" (content.map contentItemText) }
    | .error e => { success := false, result := "", error := some e }

/-- Model of `executeToolCalls` (src/lib/prompt-resolver.ts): the `for` loop pushing one
result per call, with the MCP transport passed explicitly as `callTool`. -/
def executeToolCalls (configs : List McpServerConfig)
    (callTool : McpServerConfig → String → JVal → Except String McpToolResult) :
    List ToolCall → List ToolExecResult
  | [] => []
  | tc :: rest => execToolCall configs callTool tc :: executeToolCalls configs callTool rest

/-! ## `src/unnamed/part_009` (`src/lib/storage.ts`) — `generateFilename` -/

/-- The sanitizer `replace(/[^a-zA-Z0-9-_]/g, '_')`, per character. -/
def sanitizeChar (c : Char) : Char :=
  if ('a' ≤ c ∧ c ≤ 'z') ∨ ('A' ≤ c ∧ c ≤ 'Z') ∨ ('0' ≤ c ∧ c ≤ '9') ∨ c = '-' ∨ c = '_'
  then c else '_'

/-- The strip `replace(/\.[^/.]+$/, '')`: remove a final `.ext` whose `ext` is nonempty
and contains neither `/` nor `.` (necessarily the segment after the last dot). -/
def stripExtension (cs : List Char) : List Char :=
  let revExt := cs.reverse.takeWhile (fun c => c ≠ '.')
  if revExt.length = cs.length then cs
  else if revExt.isEmpty then cs
  else if revExt.contains '/' then cs
  else cs.take (cs.length - revExt.length - 1)

/-- The extension `originalFilename.split('.').pop() || ''`. -/
def lastExtension (cs : List Char) : List Char :=
  jsPop (jsSplit '.' cs)

/-- Model of `generateFilename`: `Date.now()` and the random base-36 token are explicit
parameters; the result is
`${sanitizedName}_${timestamp}_${random}.${extension}`. -/
def generateFilename (timestamp : Nat) (random : String) (originalFilename : String) :
    String :=
  let cs := originalFilename.data
  let extension := lastExtension cs
  let nameWithoutExt := stripExtension cs
  let sanitizedName := nameWithoutExt.map sanitizeChar
  String.mk (sanitizedName ++ '_' :: natDigits timestamp ++ '_' :: random.data
    ++ '.' :: extension)

/-! ## `src/app/api/files/[filename]/route.ts` — GET -/

/-- A response of the file-serving route: an error JSON or the file bytes. -/
inductive RouteResponse where
  | json (status : Nat) (errorMsg : String)
  | fileResp (bytes : List Nat) (contentType : String) (filename : String)
deriving DecidableEq, Repr

/-- The route's own extension→content-type table (same nine entries, but defaulting,
at the use site, to `application/octet-stream`). -/
def contentTypeMap (extension : String) : Option String :=
  match extension with
  | "jpg" => some "image/jpeg"
  | "jpeg" => some "image/jpeg"
  | "png" => some "image/png"
  | "gif" => some "image/gif"
  | "webp" => some "image/webp"
  | "pdf" => some "application/pdf"
  | "txt" => some "text/plain"
  | "md" => some "text/markdown"
  | "json" => some "application/json"
  | _ => none

/-- Model of the file-serving `GET` handler: the filesystem under the storage directory
is the explicit parameter `fs` (bytes per stored filename).  The traversal guard runs
before `fs` is consulted. -/
def fileRouteGET (fs : String → Option (List Nat)) (filename : String) : RouteResponse :=
  if jsIncludes filename.data ['.', '.'] || jsIncludes filename.data ['/'] ||
     jsIncludes filename.data ['\\'] then
    .json 400 "Invalid filename"
  else
    match fs filename with
    | none => .json 404 "File not found"
    | some bytes =>
      let extension := String.mk ((jsPop (jsSplit '.' filename.data)).map Char.toLower)
      .fileResp bytes ((contentTypeMap extension).getD "application/octet-stream") filename

/-! ## `src/app/api/upload/route.ts` — POST -/

/-- The environment configuration the upload route reads. -/
structure UploadEnv where
  maxFileSizeMB : Option String := none
  allowedFileTypes : Option String := none

/-- The authenticated user of a session. -/
structure SessionUser where
  id : String

/-- A session, as `auth()` returns it (`session?.user?.id` is the login check). -/
structure Session where
  user : Option SessionUser

/-- A file taken from the request's form data. -/
structure FormFile where
  name : String
  size : Nat
  type : String
deriving DecidableEq, Repr

/-- Model of JavaScript `parseInt(s, 10)`: optional sign after trimmed whitespace, then
leading decimal digits; `none` models `NaN`. -/
def parseIntJS (s : String) : Option Int :=
  let cs := s.data.dropWhile isJsWs
  let (neg, cs1) :=
    match cs with
    | '-' :: r => (true, r)
    | '+' :: r => (false, r)
    | _ => (false, cs)
  let ds := cs1.takeWhile (fun c => c.isDigit)
  if ds.isEmpty then none
  else some (if neg then -(Int.ofNat (digitsToNat ds)) else Int.ofNat (digitsToNat ds))

/-- The default `ALLOWED_FILE_TYPES` list of the upload route. -/
def defaultAllowedTypes : List String :=
  ["image/jpeg", "image/png", "image/gif", "image/webp", "application/pdf",
   "text/plain", "text/markdown"]

/-- A JSON response of the upload route. -/
structure UploadResponse where
  status : Nat
  error : Option String := none
  url : Option String := none
  filename : Option String := none
deriving DecidableEq, Repr

/-- The observable outcome of the upload route: the response, plus whether control
reached the `uploadFile(file)` call (`wrote`). -/
structure UploadPostOutcome where
  response : UploadResponse
  wrote : Bool
deriving DecidableEq, Repr

/-- The login check `session?.user?.id` (an absent session, absent user, or empty id
is falsy). -/
def sessionAuthed (session : Option Session) : Bool :=
  match session with
  | some s =>
    match s.user with
    | some u => u.id ≠ ""
    | none => false
  | none => false

/-- Model of the upload `POST` handler: authentication, file presence, size ceiling
(`parseInt(MAX_FILE_SIZE_MB || '10') * 1024 * 1024`, a `NaN` ceiling rejecting
nothing), type allowlist, then the storage call (the oracle `upload`). -/
def uploadPOST (env : UploadEnv) (session : Option Session) (file? : Option FormFile)
    (upload : FormFile → Except String (String × String)) : UploadPostOutcome :=
  if !(sessionAuthed session) then ⟨{ status := 401, error := some "Unauthorized" }, false⟩
  else
    match file? with
    | none => ⟨{ status := 400, error := some "No file provided" }, false⟩
    | some file =>
      let maxSizeOpt := (parseIntJS (env.maxFileSizeMB.getD "10")).map (· * 1024 * 1024)
      let tooBig : Bool :=
        match maxSizeOpt with
        | some m => decide ((file.size : Int) > m)
        | none => false
      if tooBig then
        let mbStr :=
          match maxSizeOpt with
          | some m => String.mk (intDigits (m / (1024 * 1024)))
          | none => ""
        ⟨{ status := 400,
           error := some ("File too large. Maximum size is " ++ mbStr ++ "MB") }, false⟩
      else
        let allowedTypes :=
          match env.allowedFileTypes with
          | some s => (jsSplit ',' s.data).map String.mk
          | none => defaultAllowedTypes
        if !(allowedTypes.contains file.type) && !(allowedTypes.contains "*") then
          ⟨{ status := 400,
             error := some ("File type not allowed. Allowed types: "
               ++ String.intercalate ", " allowedTypes) }, false⟩
        else
          match upload file with
          | .ok (url, filename) =>
            ⟨{ status := 200, url := some url, filename := some filename }, true⟩
          | .error e => ⟨{ status := 500, error := some e }, true⟩

/-! ## Theorems: content normalizer (C4, C9) -/

/-- The code's per-item text is the spec's per-item text, with `''` for parts that
contribute nothing. -/
theorem itemToText_eq (item : JVal) : itemToText item = (specTextOf item).getD "" := by
  cases item <;> try rfl
  next fs =>
  simp only [itemToText, specTextOf]
  cases h : objGet "type" fs with
  | none => rfl
  | some v =>
    cases v <;> try rfl
    next s =>
    by_cases hs : s = "text"
    · subst hs
      cases h2 : objGet "text" fs with
      | none => rfl
      | some w => cases w <;> rfl
    · simp [hs]

/-- On arrays, the code's filtered map equals the spec's texts with empty ones removed. -/
theorem mapFilter_eq_filterMapFilter (items : List JVal) :
    (items.map itemToText).filter (fun s => s ≠ "") =
    (items.filterMap specTextOf).filter (fun t => t ≠ "") := by
  induction items with
  | nil => rfl
  | cons a l ih =>
    simp only [List.map_cons, List.filterMap_cons]
    cases h : specTextOf a with
    | none =>
      have ha : itemToText a = "" := by rw [itemToText_eq, h]; rfl
      simp only [List.filter_cons, ha, ih]
      simp
    | some t =>
      have ha : itemToText a = t := by rw [itemToText_eq, h]; rfl
      simp only [List.filter_cons, ha, ih]

/-- A well-formed text part. -/
def textPart (t : String) : JVal :=
  .obj [("type", .str "text"), ("text", .str t)]

/-- C4 counterexample: on the array `[text "a", text "", text "b"]` the code returns
`"a b"` (the `filter(Boolean)` drops the empty text), while the claim's rule — the
texts of the text parts joined with single spaces — gives `"a  b"`. -/
theorem getContentAsString_spec_counterexample :
    getContentAsString (.arr [textPart "a", textPart "", textPart "b"]) ≠
    specFlattenToText (.arr [textPart "a", textPart "", textPart "b"]) := by
  decide

/-- C4 (amended): `getContentAsString` returns a plain string unchanged; on an array it
returns the non-empty texts of the parts whose `type` is `text` and whose `text` field
is a string, in their original order, joined with single spaces, dropping every other
part. -/
theorem getContentAsString_amended :
    (∀ s, getContentAsString (.str s) = s) ∧
    (∀ items, getContentAsString (.arr items) =
      String.intercalate " " ((items.filterMap specTextOf).filter (fun t => t ≠ ""))) := by
  refine ⟨fun s => rfl, fun items => ?_⟩
  simp only [getContentAsString, mapFilter_eq_filterMapFilter]

/-- C9: the content normalizers are total and permissive: `getContentAsString` returns
`""` on every input that is neither a string nor an array; an array item that is not a
well-formed text part contributes nothing to the result; and `getContentAsMultimodal`
returns every array input unchanged. -/
theorem contentHelpers_permissive :
    (∀ v : JVal, (∀ s, v ≠ .str s) → (∀ xs, v ≠ .arr xs) → getContentAsString v = "") ∧
    (∀ (xs ys : List JVal) (item : JVal), specTextOf item = none →
      getContentAsString (.arr (xs ++ item :: ys)) = getContentAsString (.arr (xs ++ ys))) ∧
    (∀ (items : List JVal) (r : JVal), getContentAsMultimodal (.arr items) r = .arr items) := by
  refine ⟨?_, ?_, fun items r => rfl⟩
  · intro v hs ha
    cases v <;> first
      | rfl
      | exact absurd rfl (hs _)
      | exact absurd rfl (ha _)
  · intro xs ys item h
    have ha : itemToText item = "" := by rw [itemToText_eq, h]; rfl
    simp only [getContentAsString, List.map_append, List.map_cons, List.filter_append,
      List.filter_cons, ha]
    simp

/-- C9 witness: concrete inputs through `contentHelpers_permissive`. -/
theorem contentHelpers_permissive_witness :
    getContentAsString (JVal.num 5) = "" ∧
    getContentAsString (.arr [textPart "hi", .null]) = getContentAsString (.arr [textPart "hi"]) ∧
    getContentAsMultimodal (.arr [textPart "hi"]) .undef = .arr [textPart "hi"] :=
  ⟨contentHelpers_permissive.1 (JVal.num 5) (fun _ h => nomatch h) (fun _ h => nomatch h),
   contentHelpers_permissive.2.1 [textPart "hi"] [] .null rfl,
   contentHelpers_permissive.2.2 [textPart "hi"] .undef⟩

/-! ## Theorems: provider transformer (C3, C5, C10) -/

/-- The code's MIME sniffing equals the spec's rule. -/
theorem getMimeTypeFromUrl_eq_spec (url : String) :
    getMimeTypeFromUrl url = specMimeType url := by
  simp only [getMimeTypeFromUrl, specMimeType, specDataPrefixMime]
  split_ifs with h1 h2 h3 <;> try rfl
  all_goals try exact absurd (not_not.mp h2) h3
  all_goals cases he : mimeTypeMap (urlExtension url) <;> simp [he, Option.getD]

/-- C3: for a Gemini-prefixed model identifier, `transformMessagesForGemini` maps every
message through the Gemini branch; every image part `{type: 'image_url',
image_url: {url}}` becomes `{type: 'image_url', imageUrl: {url, mimeType}}` with
`mimeType` given by the spec's sniffing rule (`data:` prefix when it carries a MIME
type, else the extension table, else `image/png`); array contents are mapped
elementwise. -/
theorem transformMessagesForGemini_image_rewrite :
    ∀ model : String, isGeminiModel model = true →
    (∀ msgs, transformMessagesForGemini msgs model = msgs.map transformMsgGemini) ∧
    (∀ url, getMimeTypeFromUrl url = specMimeType url) ∧
    (∀ (item : ContentPart) (url : String) (mt : Option String),
      item.type = "image_url" → item.image_url = some ⟨url, mt⟩ →
      transformItemGemini item =
        { type := "image_url", imageUrl := some ⟨url, specMimeType url⟩ }) ∧
    (∀ (msg : ChatMsg) (items : List ContentPart), msg.content = .parts items →
      (transformMsgGemini msg).content = .parts (items.map transformItemGemini)) := by
  intro model h
  refine ⟨fun msgs => ?_, getMimeTypeFromUrl_eq_spec, ?_, ?_⟩
  · simp [transformMessagesForGemini, h]
  · intro item url mt h1 h2
    simp [transformItemGemini, h1, h2, getMimeTypeFromUrl_eq_spec]
  · intro msg items hc
    simp [transformMsgGemini, hc]

/-- C3 witness: a concrete image part and URL through
`transformMessagesForGemini_image_rewrite`. -/
theorem transformMessagesForGemini_image_rewrite_witness :
    transformItemGemini ⟨"image_url", none, some ⟨"http://h/cat.png", none⟩, none, none⟩ =
      { type := "image_url", imageUrl := some ⟨"http://h/cat.png", specMimeType "http://h/cat.png"⟩ } ∧
    transformMessagesForGemini [⟨"user", .str "hi"⟩] "google/gemini-2.0-flash" =
      [⟨"user", .str "hi"⟩].map transformMsgGemini :=
  ⟨(transformMessagesForGemini_image_rewrite "google/gemini-2.0-flash" (by decide)).2.2.1
      ⟨"image_url", none, some ⟨"http://h/cat.png", none⟩, none, none⟩ "http://h/cat.png" none rfl rfl,
   (transformMessagesForGemini_image_rewrite "google/gemini-2.0-flash" (by decide)).1
      [⟨"user", .str "hi"⟩]⟩

/-- The non-Gemini per-item mapping is idempotent. -/
theorem transformItemNonGemini_idem (item : ContentPart) :
    transformItemNonGemini (transformItemNonGemini item) = transformItemNonGemini item := by
  rcases item with ⟨ty, tx, iu, icu, fl⟩
  cases iu with
  | none => rfl
  | some u =>
    by_cases hty : ty = "image_url"
    · subst hty; simp [transformItemNonGemini]
    · simp [transformItemNonGemini, hty]

/-- The Gemini per-item mapping is idempotent. -/
theorem transformItemGemini_idem (item : ContentPart) :
    transformItemGemini (transformItemGemini item) = transformItemGemini item := by
  rcases item with ⟨ty, tx, iu, icu, fl⟩
  by_cases h1 : ty = "image_url"
  · subst h1
    cases iu with
    | some u => simp [transformItemGemini]
    | none => simp [transformItemGemini]
  · by_cases h2 : ty = "text"
    · subst h2
      cases tx with
      | some s =>
        by_cases hs : s = ""
        · subst hs; simp [transformItemGemini, truthyOptStr]
        · simp [transformItemGemini, truthyOptStr, hs]
      | none => simp [transformItemGemini, truthyOptStr]
    · by_cases h3 : ty = "file"
      · subst h3
        cases fl with
        | some f => simp [transformItemGemini, h2]
        | none => simp [transformItemGemini, h2]
      · simp [transformItemGemini, h1, h2, h3]

/-- The non-Gemini per-message mapping is idempotent. -/
theorem transformMsgNonGemini_idem (msg : ChatMsg) :
    transformMsgNonGemini (transformMsgNonGemini msg) = transformMsgNonGemini msg := by
  rcases msg with ⟨role, content⟩
  cases content with
  | str s => rfl
  | other => rfl
  | parts items =>
    simp only [transformMsgNonGemini, List.map_map, Function.comp_def]
    rw [List.map_congr_left (fun a _ => transformItemNonGemini_idem a)]

/-- The Gemini per-message mapping is idempotent. -/
theorem transformMsgGemini_idem (msg : ChatMsg) :
    transformMsgGemini (transformMsgGemini msg) = transformMsgGemini msg := by
  rcases msg with ⟨role, content⟩
  cases content with
  | str s => rfl
  | other => rfl
  | parts items =>
    simp only [transformMsgGemini, List.map_map, Function.comp_def]
    rw [List.map_congr_left (fun a _ => transformItemGemini_idem a)]

/-- Does a message contain an image part (a content-array element of type `image_url`)? -/
def msgHasImagePart (msg : ChatMsg) : Bool :=
  match msg.content with
  | .parts items => items.any (fun item => item.type == "image_url")
  | _ => false

/-- The transformer is the elementwise map of the branch selected by the model. -/
theorem transformMessagesForGemini_eq_map (msgs : List ChatMsg) (model : String) :
    transformMessagesForGemini msgs model = msgs.map (msgMapOf model) := by
  cases hg : isGeminiModel model <;>
    simp [transformMessagesForGemini, msgMapOf, hg]

/-- The per-message mapping of either branch is idempotent. -/
theorem msgMapOf_idem (model : String) (msg : ChatMsg) :
    msgMapOf model (msgMapOf model msg) = msgMapOf model msg := by
  cases hg : isGeminiModel model <;> simp only [msgMapOf, hg, if_true, if_false]
  · exact transformMsgNonGemini_idem msg
  · exact transformMsgGemini_idem msg

/-- C5: on message lists without image parts, `transformMessagesForGemini` is
idempotent for every model identifier. -/
theorem transformMessagesForGemini_idempotent :
    ∀ (msgs : List ChatMsg) (model : String),
      msgs.all (fun m => !(msgHasImagePart m)) = true →
      transformMessagesForGemini (transformMessagesForGemini msgs model) model =
        transformMessagesForGemini msgs model := by
  intro msgs model _
  rw [transformMessagesForGemini_eq_map, transformMessagesForGemini_eq_map,
    List.map_map]
  exact List.map_congr_left (fun a _ => msgMapOf_idem model a)

/-- C5 witness: a concrete image-free message list and a Gemini model identifier
through `transformMessagesForGemini_idempotent`. -/
theorem transformMessagesForGemini_idempotent_witness :
    transformMessagesForGemini
      (transformMessagesForGemini
        [⟨"user", .parts [⟨"text", some "hello", none, none, none⟩]⟩, ⟨"assistant", .str "hi"⟩]
        "google/gemini-1.5-pro")
      "google/gemini-1.5-pro" =
    transformMessagesForGemini
      [⟨"user", .parts [⟨"text", some "hello", none, none, none⟩]⟩, ⟨"assistant", .str "hi"⟩]
      "google/gemini-1.5-pro" :=
  transformMessagesForGemini_idempotent
    [⟨"user", .parts [⟨"text", some "hello", none, none, none⟩]⟩, ⟨"assistant", .str "hi"⟩]
    "google/gemini-1.5-pro" (by decide)

/-- C10: frame conditions of `transformMessagesForGemini`: the output has the same
length, is the elementwise map of the branch selected by the model, every message
keeps its role, plain-string messages are returned unchanged, array contents are
mapped elementwise, and an element whose type is not `image_url` (nor, on the Gemini
branch, `text` or `file`) is returned unchanged. -/
theorem transformMessagesForGemini_frame :
    ∀ (model : String) (msgs : List ChatMsg),
      transformMessagesForGemini msgs model = msgs.map (msgMapOf model) ∧
      (transformMessagesForGemini msgs model).length = msgs.length ∧
      (∀ msg : ChatMsg, (msgMapOf model msg).role = msg.role) ∧
      (∀ (msg : ChatMsg) (s : String), msg.content = .str s → msgMapOf model msg = msg) ∧
      (∀ (msg : ChatMsg) (items : List ContentPart), msg.content = .parts items →
        (msgMapOf model msg).content = .parts (items.map (itemMapOf model))) ∧
      (∀ item : ContentPart, isGeminiModel model = false → item.type ≠ "image_url" →
        itemMapOf model item = item) ∧
      (∀ item : ContentPart, isGeminiModel model = true →
        item.type ∉ (["image_url", "text", "file"] : List String) →
        itemMapOf model item = item) := by
  intro model msgs
  refine ⟨transformMessagesForGemini_eq_map msgs model, ?_, ?_, ?_, ?_, ?_, ?_⟩
  · rw [transformMessagesForGemini_eq_map]; exact List.length_map msgs (msgMapOf model)
  · intro msg
    cases hg : isGeminiModel model <;>
      simp only [msgMapOf, hg, if_true, if_false] <;>
      cases hc : msg.content <;>
      simp [transformMsgGemini, transformMsgNonGemini, hc]
  · intro msg s hc
    cases hg : isGeminiModel model <;>
      simp only [msgMapOf, hg, if_true, if_false] <;>
      simp [transformMsgGemini, transformMsgNonGemini, hc]
  · intro msg items hc
    cases hg : isGeminiModel model <;>
      simp only [msgMapOf, itemMapOf, hg, if_true, if_false] <;>
      simp [transformMsgGemini, transformMsgNonGemini, hc]
  · intro item hg hty
    cases hiu : item.image_url <;>
      simp [itemMapOf, hg, transformItemNonGemini, hiu, hty]
  · intro item hg hnotin
    simp only [List.mem_cons, List.mem_singleton, not_or] at hnotin
    obtain ⟨h1, h2, h3⟩ := hnotin
    have h3' : item.type ≠ "file" := by simpa using h3
    simp [itemMapOf, hg, transformItemGemini, h1, h2, h3']

/-- C10 witness: concrete inputs through `transformMessagesForGemini_frame`. -/
theorem transformMessagesForGemini_frame_witness :
    itemMapOf "google/gemini-pro" ⟨"custom", some "x", none, none, none⟩ =
      ⟨"custom", some "x", none, none, none⟩ ∧
    itemMapOf "openai/gpt-4o" ⟨"text", some "x", none, none, none⟩ =
      ⟨"text", some "x", none, none, none⟩ ∧
    (transformMessagesForGemini [⟨"user", .str "hi"⟩] "openai/gpt-4o").length = 1 ∧
    msgMapOf "google/gemini-pro" ⟨"system", .str "s"⟩ = ⟨"system", .str "s"⟩ :=
  ⟨(transformMessagesForGemini_frame "google/gemini-pro" []).2.2.2.2.2.2
      ⟨"custom", some "x", none, none, none⟩ (by decide) (by decide),
   (transformMessagesForGemini_frame "openai/gpt-4o" []).2.2.2.2.2.1
      ⟨"text", some "x", none, none, none⟩ (by decide) (by decide),
   (transformMessagesForGemini_frame "openai/gpt-4o" [⟨"user", .str "hi"⟩]).2.1,
   (transformMessagesForGemini_frame "google/gemini-pro" []).2.2.2.1
      ⟨"system", .str "s"⟩ "s" rfl⟩

/-! ## Theorems: file-serving route (C6) and upload route (C8) -/

/-- C6: a filename containing `..`, `/`, or `\` is rejected with a 400 "Invalid
filename" response, for every state of the filesystem — in particular before and
independent of any filesystem access. -/
theorem fileRouteGET_traversal_guard :
    ∀ (fs : String → Option (List Nat)) (filename : String),
      (jsIncludes filename.data ['.', '.'] || jsIncludes filename.data ['/'] ||
        jsIncludes filename.data ['\\']) = true →
      fileRouteGET fs filename = .json 400 "Invalid filename" := by
  intro fs filename h
  simp [fileRouteGET, h]

/-- C6 witness: the three inputs named by the spec, rejected even on a filesystem that
contains every name, through `fileRouteGET_traversal_guard`. -/
theorem fileRouteGET_traversal_guard_witness :
    fileRouteGET (fun _ => some [7]) "../../etc/passwd" = .json 400 "Invalid filename" ∧
    fileRouteGET (fun _ => some [7]) "a/b.png" = .json 400 "Invalid filename" ∧
    fileRouteGET (fun _ => some [7]) "a\\b.png" = .json 400 "Invalid filename" :=
  ⟨fileRouteGET_traversal_guard (fun _ => some [7]) "../../etc/passwd" (by decide),
   fileRouteGET_traversal_guard (fun _ => some [7]) "a/b.png" (by decide),
   fileRouteGET_traversal_guard (fun _ => some [7]) "a\\b.png" (by decide)⟩

/-- C8: with `MAX_FILE_SIZE_MB = "1"`, every authenticated upload whose file exceeds
1 MiB is answered 400 with an error naming the 1 MB limit, and the storage call is
never reached — for every allowlist configuration and every storage oracle. -/
theorem uploadPOST_size_limit :
    ∀ (env : UploadEnv) (session : Option Session) (file : FormFile)
      (upload : FormFile → Except String (String × String)),
      env.maxFileSizeMB = some "1" →
      sessionAuthed session = true →
      file.size > 1024 * 1024 →
      uploadPOST env session (some file) upload =
        ⟨{ status := 400, error := some "File too large. Maximum size is 1MB" }, false⟩ := by
  intro env session file upload hEnv hAuth hSize
  have hd : decide ((1048576 : Int) < (file.size : Int)) = true :=
    decide_eq_true (by exact_mod_cast hSize)
  simp only [uploadPOST, hEnv, hAuth, Bool.not_true, Bool.false_eq_true, if_false,
    Option.getD]
  have hp : (parseIntJS "1").map (· * 1024 * 1024) = some 1048576 := rfl
  simp only [hp, hd, if_true]
  rfl

/-- C8 witness: a 2 MB PNG against a 1 MB limit through `uploadPOST_size_limit`. -/
theorem uploadPOST_size_limit_witness :
    uploadPOST ⟨some "1", none⟩ (some ⟨some ⟨"user-1"⟩⟩) (some ⟨"big.png", 2097152, "image/png"⟩)
      (fun _ => .ok ("http://h/f", "f")) =
      ⟨{ status := 400, error := some "File too large. Maximum size is 1MB" }, false⟩ :=
  uploadPOST_size_limit ⟨some "1", none⟩ (some ⟨some ⟨"user-1"⟩⟩) ⟨"big.png", 2097152, "image/png"⟩
    (fun _ => .ok ("http://h/f", "f")) rfl (by decide) (by decide)

/-! ## Theorems: `generateFilename` (C2) -/

/-- `jsSplit` never returns an empty array (as `String.prototype.split` never does). -/
theorem jsSplit_ne_nil (sep : Char) (cs : List Char) : jsSplit sep cs ≠ [] := by
  induction cs with
  | nil => simp [jsSplit]
  | cons c rest ih =>
    simp only [jsSplit]
    split_ifs
    · simp
    · cases h : jsSplit sep rest <;> simp

/-- No segment produced by `jsSplit` contains the separator. -/
theorem jsSplit_not_mem_sep (sep : Char) (cs : List Char) :
    ∀ seg ∈ jsSplit sep cs, sep ∉ seg := by
  induction cs with
  | nil =>
    intro seg h
    simp [jsSplit] at h
    subst h; simp
  | cons c rest ih =>
    intro seg h
    simp only [jsSplit] at h
    split_ifs at h with hc
    · rcases List.mem_cons.mp h with h1 | h1
      · subst h1; simp
      · exact ih seg h1
    · cases hsp : jsSplit sep rest with
      | nil => exact absurd hsp (jsSplit_ne_nil sep rest)
      | cons s ss =>
        rw [hsp] at h
        rcases List.mem_cons.mp h with h1 | h1
        · subst h1
          intro hmem
          rcases List.mem_cons.mp hmem with he | he
          · exact hc he.symm
          · exact ih s (by rw [hsp]; exact List.mem_cons_self s ss) he
        · exact ih seg (by rw [hsp]; exact List.mem_cons_of_mem s h1)

/-- `jsPop` of a nonempty list is one of its elements. -/
theorem jsPop_mem : ∀ (l : List (List Char)), l ≠ [] → jsPop l ∈ l
  | [], h => absurd rfl h
  | [a], _ => by simp [jsPop]
  | a :: b :: m, _ => by
    have ih := jsPop_mem (b :: m) (by simp)
    simp only [jsPop]
    exact List.mem_cons_of_mem a ih

/-- The separator does not occur in the last split segment; in particular the
extension `split('.').pop()` contains no dot. -/
theorem lastExtension_no_dot (cs : List Char) : '.' ∉ lastExtension cs := by
  unfold lastExtension
  exact jsSplit_not_mem_sep '.' cs _ (jsPop_mem _ (jsSplit_ne_nil '.' cs))

/-- Everything `natDigitsAux` prepends is a decimal digit. -/
theorem natDigitsAux_digits : ∀ (fuel n : Nat) (acc : List Char),
    (∀ c ∈ acc, c.isDigit = true) → ∀ c ∈ natDigitsAux fuel n acc, c.isDigit = true := by
  intro fuel
  induction fuel with
  | zero => intro n acc hacc c hc; exact hacc c hc
  | succ f ih =>
    intro n acc hacc c hc
    have hdig : (Char.ofNat (48 + n % 10)).isDigit = true := by
      have h10 : n % 10 < 10 := Nat.mod_lt _ (by norm_num)
      interval_cases h : n % 10 <;> decide
    simp only [natDigitsAux] at hc
    split at hc
    · rcases List.mem_cons.mp hc with h1 | h1
      · subst h1; exact hdig
      · exact hacc c h1
    · refine ih (n / 10) _ ?_ c hc
      intro x hx
      rcases List.mem_cons.mp hx with h1 | h1
      · subst h1; exact hdig
      · exact hacc x h1

/-- Every character of `natDigits n` is a decimal digit. -/
theorem natDigits_digits (n : Nat) : ∀ c ∈ natDigits n, c.isDigit = true :=
  natDigitsAux_digits (n + 1) n [] (by simp)

/-- The sanitizer's output is always in `[a-zA-Z0-9-_]`. -/
theorem sanitizeChar_mem (c : Char) :
    ('a' ≤ sanitizeChar c ∧ sanitizeChar c ≤ 'z') ∨
    ('A' ≤ sanitizeChar c ∧ sanitizeChar c ≤ 'Z') ∨
    ('0' ≤ sanitizeChar c ∧ sanitizeChar c ≤ '9') ∨
    sanitizeChar c = '-' ∨ sanitizeChar c = '_' := by
  unfold sanitizeChar
  split_ifs with h
  · exact h
  · simp

/-- The sanitizer never emits `.`, `/` or `\`. -/
theorem sanitizeChar_safe (c : Char) :
    sanitizeChar c ≠ '.' ∧ sanitizeChar c ≠ '/' ∧ sanitizeChar c ≠ '\\' := by
  rcases sanitizeChar_mem c with h | h | h | h | h
  all_goals refine ⟨?_, ?_, ?_⟩
  all_goals (intro he; rw [he] at h; revert h; decide)

/-- A decimal digit is not `.`, `/` or `\`. -/
theorem isDigit_safe (c : Char) (h : c.isDigit = true) :
    c ≠ '.' ∧ c ≠ '/' ∧ c ≠ '\\' := by
  refine ⟨?_, ?_, ?_⟩ <;> (intro he; rw [he] at h; exact absurd h (by decide))

/-- A list with exactly one dot, not at adjacent positions, has no `..` infix. -/
theorem no_adjacent_dots {A B : List Char} (hA : '.' ∉ A) (hB : '.' ∉ B) :
    ¬ ['.', '.'] <:+: (A ++ '.' :: B) := by
  intro h
  have hcount : List.count '.' (A ++ '.' :: B) = 1 := by
    simp [List.count_append, List.count_cons,
      List.count_eq_zero_of_not_mem hA, List.count_eq_zero_of_not_mem hB]
  have hle := h.sublist.count_le '.'
  rw [hcount] at hle
  simp at hle

/-- Every character of the generated filename comes from one of its six pieces. -/
theorem mem_generateFilename {x : Char} {ts : Nat} {random orig : String}
    (hmem : x ∈ (generateFilename ts random orig).data) :
    (∃ c ∈ stripExtension orig.data, sanitizeChar c = x) ∨ x = '_' ∨
      x ∈ natDigits ts ∨ x ∈ random.data ∨ x = '.' ∨ x ∈ lastExtension orig.data := by
  have hdata : (generateFilename ts random orig).data =
      (stripExtension orig.data).map sanitizeChar ++ '_' :: natDigits ts
        ++ '_' :: random.data ++ '.' :: lastExtension orig.data := rfl
  rw [hdata] at hmem
  simp only [List.mem_append, List.mem_cons, List.mem_map] at hmem
  rcases hmem with ((⟨c, hc1, hc2⟩ | h | h) | h | h) | h | h
  · exact Or.inl ⟨c, hc1, hc2⟩
  · exact Or.inr (Or.inl h)
  · exact Or.inr (Or.inr (Or.inl h))
  · exact Or.inr (Or.inl h)
  · exact Or.inr (Or.inr (Or.inr (Or.inl h)))
  · exact Or.inr (Or.inr (Or.inr (Or.inr (Or.inl h))))
  · exact Or.inr (Or.inr (Or.inr (Or.inr (Or.inr h))))

/-- C2 counterexample: the original filename `ab/cd` (no dot, so the whole name is the
"extension" appended verbatim) produces a stored filename containing `/`, refuting the
claim that every stored filename is free of `/`, `\` and `..`. -/
theorem generateFilename_claim_counterexample :
    '/' ∈ (generateFilename 1700000000000 "k3j2h1" "ab/cd").data := by decide

/-- C2 (amended): the name without extension is sanitized into `[a-zA-Z0-9-_]` and
suffixed with the timestamp and random token, but the extension (the segment after the
last dot, or the whole name when it has no dot) is appended verbatim.  Consequently the
stored filename never contains `..`, and it contains no `/` or `\` provided the
original's extension segment contains none (the random token being the dot-free,
slash-free base-36 string `Math.random().toString(36)` produces). -/
theorem generateFilename_amended :
    ∀ (timestamp : Nat) (random : String) (original : String),
      (∀ c ∈ random.data, c ≠ '.' ∧ c ≠ '/' ∧ c ≠ '\\') →
      (∀ c ∈ lastExtension original.data, c ≠ '/' ∧ c ≠ '\\') →
      (¬ ['.', '.'] <:+: (generateFilename timestamp random original).data) ∧
      '/' ∉ (generateFilename timestamp random original).data ∧
      '\\' ∉ (generateFilename timestamp random original).data ∧
      (∀ c ∈ (stripExtension original.data).map sanitizeChar,
        ('a' ≤ c ∧ c ≤ 'z') ∨ ('A' ≤ c ∧ c ≤ 'Z') ∨ ('0' ≤ c ∧ c ≤ '9') ∨
          c = '-' ∨ c = '_') := by
  intro ts random orig hr he
  refine ⟨?_, ?_, ?_, ?_⟩
  · show ¬ ['.', '.'] <:+: ((stripExtension orig.data).map sanitizeChar
      ++ '_' :: natDigits ts ++ '_' :: random.data ++ '.' :: lastExtension orig.data)
    refine no_adjacent_dots ?_ (lastExtension_no_dot orig.data)
    intro hmem
    simp only [List.mem_append, List.mem_cons, List.mem_map] at hmem
    rcases hmem with (⟨c, _, hc⟩ | h | h) | h | h
    · exact (sanitizeChar_safe c).1 hc
    · exact absurd h (by decide)
    · exact (isDigit_safe _ (natDigits_digits ts _ h)).1 rfl
    · exact absurd h (by decide)
    · exact (hr _ h).1 rfl
  · intro hmem
    rcases mem_generateFilename hmem with ⟨c, _, hc⟩ | h | h | h | h | h
    · exact (sanitizeChar_safe c).2.1 hc
    · exact absurd h (by decide)
    · exact (isDigit_safe _ (natDigits_digits ts _ h)).2.1 rfl
    · exact (hr _ h).2.1 rfl
    · exact absurd h (by decide)
    · exact (he _ h).1 rfl
  · intro hmem
    rcases mem_generateFilename hmem with ⟨c, _, hc⟩ | h | h | h | h | h
    · exact (sanitizeChar_safe c).2.2 hc
    · exact absurd h (by decide)
    · exact (isDigit_safe _ (natDigits_digits ts _ h)).2.2 rfl
    · exact (hr _ h).2.2 rfl
    · exact absurd h (by decide)
    · exact (he _ h).2 rfl
  · intro c hc
    rcases List.mem_map.mp hc with ⟨d, _, rfl⟩
    exact sanitizeChar_mem d

/-- C2 witness: a concrete upload name through `generateFilename_amended`. -/
theorem generateFilename_amended_witness :
    (¬ ['.', '.'] <:+: (generateFilename 1700000000000 "k3j2h1" "my photo!.png").data) ∧
    '/' ∉ (generateFilename 1700000000000 "k3j2h1" "my photo!.png").data ∧
    '\\' ∉ (generateFilename 1700000000000 "k3j2h1" "my photo!.png").data ∧
    (∀ c ∈ (stripExtension ("my photo!.png").data).map sanitizeChar,
      ('a' ≤ c ∧ c ≤ 'z') ∨ ('A' ≤ c ∧ c ≤ 'Z') ∨ ('0' ≤ c ∧ c ≤ '9') ∨
        c = '-' ∨ c = '_') :=
  generateFilename_amended 1700000000000 "k3j2h1" "my photo!.png" (by decide) (by decide)

/-! ## Theorems: tool-call execution (C7) -/

/-- C7: `executeToolCalls` returns exactly one result per call, in the same order — it
is the elementwise map of `execToolCall`, so any one call's outcome (including a
failure) leaves every other entry unchanged — and a call naming a server missing from
the configuration (matched case-insensitively) yields the synthetic failure entry. -/
theorem executeToolCalls_results :
    ∀ (configs : List McpServerConfig)
      (callTool : McpServerConfig → String → JVal → Except String McpToolResult)
      (calls : List ToolCall),
      executeToolCalls configs callTool calls = calls.map (execToolCall configs callTool) ∧
      (executeToolCalls configs callTool calls).length = calls.length ∧
      (∀ (pre post : List ToolCall) (tc : ToolCall),
        executeToolCalls configs callTool (pre ++ tc :: post) =
          executeToolCalls configs callTool pre
            ++ execToolCall configs callTool tc :: executeToolCalls configs callTool post) ∧
      (∀ tc : ToolCall,
        configs.find? (fun c =>
          String.mk (c.name.data.map Char.toLower)
            == String.mk (tc.serverName.data.map Char.toLower)) = none →
        execToolCall configs callTool tc =
          { success := false, result := "",
            error := some ("Server \"" ++ tc.serverName ++ "\" not found") }) := by
  intro configs callTool calls
  have hmap : ∀ cs, executeToolCalls configs callTool cs =
      cs.map (execToolCall configs callTool) := by
    intro cs
    induction cs with
    | nil => rfl
    | cons a l ih => simp [executeToolCalls, ih]
  refine ⟨hmap calls, ?_, ?_, ?_⟩
  · rw [hmap]; exact List.length_map calls _
  · intro pre post tc
    rw [hmap, hmap, hmap]
    simp
  · intro tc h
    simp [execToolCall, h]

/-- A one-server configuration for the C7 witness. -/
def demoConfigs : List McpServerConfig := [{ name := "Playwright", command := "npx" }]

/-- A transport oracle for the C7 witness: the tool `boom` throws, everything else
succeeds with one text item. -/
def demoCallTool : McpServerConfig → String → JVal → Except String McpToolResult :=
  fun _ tool _ =>
    if tool = "boom" then .error "kaput" else .ok { content := some [.str "ok"] }

/-- C7 witness: a three-call batch (case-insensitively matched call, unknown server,
throwing call) through `executeToolCalls_results`. -/
theorem executeToolCalls_results_witness :
    execToolCall demoConfigs demoCallTool ⟨"nosuch", "t", .null⟩ =
      { success := false, result := "", error := some "Server \"nosuch\" not found" } ∧
    (executeToolCalls demoConfigs demoCallTool
      [⟨"playwright", "go", .null⟩, ⟨"nosuch", "t", .null⟩,
       ⟨"playwright", "boom", .null⟩]).length = 3 ∧
    executeToolCalls demoConfigs demoCallTool
        [⟨"playwright", "go", .null⟩, ⟨"nosuch", "t", .null⟩] =
      [⟨"playwright", "go", .null⟩, ⟨"nosuch", "t", .null⟩].map
        (execToolCall demoConfigs demoCallTool) :=
  ⟨(executeToolCalls_results demoConfigs demoCallTool []).2.2.2 ⟨"nosuch", "t", .null⟩ rfl,
   (executeToolCalls_results demoConfigs demoCallTool
      [⟨"playwright", "go", .null⟩, ⟨"nosuch", "t", .null⟩,
       ⟨"playwright", "boom", .null⟩]).2.1,
   (executeToolCalls_results demoConfigs demoCallTool
      [⟨"playwright", "go", .null⟩, ⟨"nosuch", "t", .null⟩]).1⟩

/-! ## Theorems: tool-call extraction (C1) -/

/-- The `exec` loop of `parseToolCalls` is the `filterMap` of the regex-match sequence:
a match whose arguments fail to parse is skipped, and every other match's entry is
unaffected by it. -/
theorem parseToolCallsLoop_eq_filterMap (fuel : Nat) (cs : List Char) :
    parseToolCallsLoop fuel cs = (toolCallMatchesLoop fuel cs).filterMap
      (fun g => (parseToolCallArgs (String.mk g.2.2)).map
        (fun args => { serverName := String.mk (jsTrim g.1),
                       toolName := String.mk (jsTrim g.2.1), arguments := args })) := by
  induction fuel generalizing cs with
  | zero => rfl
  | succ f ih =>
    simp only [parseToolCallsLoop, toolCallMatchesLoop]
    cases hf : findToolCall cs with
    | none => rfl
    | some r =>
      rcases r with ⟨⟨g1, g2, g3⟩, rem⟩
      simp only [List.filterMap_cons]
      cases hp : parseToolCallArgs (String.mk g3) with
      | none => simp [hp, ih]
      | some args => simp [hp, ih]

/-- The same statement at the `parseToolCalls`/`toolCallMatches` level. -/
theorem parseToolCalls_eq_filterMap (text : String) :
    parseToolCalls text = (toolCallMatches text).filterMap
      (fun g => (parseToolCallArgs (String.mk g.2.2)).map
        (fun args => { serverName := String.mk (jsTrim g.1),
                       toolName := String.mk (jsTrim g.2.1), arguments := args })) :=
  parseToolCallsLoop_eq_filterMap _ _

/-- C1: the regex's first alternative `\{[^}]*\}` always matches when a closing brace
exists, so a call whose JSON object has one level of nested braces is truncated at the
first `}`; the truncated span fails `JSON.parse` (and the loose brace-scan retry), so
the whole call is dropped: the code returns `[]` where the claim requires the call to
be parsed.  A flat call is extracted intact, and a call with unparsable arguments is
dropped without dropping a subsequent valid call. -/
theorem parseToolCalls_nested_braces_dropped :
    parseToolCalls "TOOL_CALL: playwright.navigate \x7b\"url\": \x7b\"x\": 1\x7d\x7d" = [] ∧
    parseToolCalls "TOOL_CALL: playwright.navigate \x7b\"url\": \"https://a.nl\"\x7d" =
      [{ serverName := "playwright", toolName := "navigate",
         arguments := .obj [("url", .str "https://a.nl")] }] ∧
    parseToolCalls "TOOL_CALL: a.b \x7bbad\x7d and TOOL_CALL: c.d \x7b\"x\": true\x7d" =
      [{ serverName := "c", toolName := "d", arguments := .obj [("x", .bool true)] }] :=
  ⟨rfl, rfl, rfl⟩
